import Mathlib

/-!
Verification of the calling-process discovery core (`src/utils/process.rs`).

Strings of the Rust source are modelled as `List Char` (named `Str`) so that
the string-processing functions can be reasoned about by list induction.
Each definition mirrors one Rust function of the source and is named after it.
-/

set_option maxRecDepth 10000

abbrev Str := List Char

/-- ASCII lower-casing of one character, as used by Rust's
`eq_ignore_ascii_case`. -/
def asciiLower (c : Char) : Char :=
  if 'A' ≤ c ∧ c ≤ 'Z' then Char.ofNat (c.toNat + 32) else c

/-- Rust `str::eq_ignore_ascii_case`. -/
def eqIgnoreAsciiCase (a b : Str) : Bool :=
  decide (a.map asciiLower = b.map asciiLower)

/-- Rust `str::starts_with('-')`. -/
def startsWithDash (a : Str) : Bool :=
  match a with
  | [] => false
  | c :: _ => decide (c = '-')

/-- Rust `str::split(c)`: the list of segments between occurrences of `c`.
Always nonempty (`"".split(c)` yields one empty segment). -/
def splitOnChar (c : Char) : Str → List Str
  | [] => [[]]
  | x :: xs =>
    match splitOnChar c xs with
    | [] => [[]]
    | r :: rs => if x = c then [] :: r :: rs else (x :: r) :: rs

/-- Rust `str::split_once(c)`: split at the first occurrence of `c`. -/
def splitOnceChar (c : Char) : Str → Option (Str × Str)
  | [] => none
  | x :: xs =>
    if x = c then some ([], xs)
    else (splitOnceChar c xs).map (fun p => (x :: p.1, p.2))

/-- The segment of `s` strictly after the last occurrence of `c`
(the whole of `s` when `c` does not occur).  This is the specification-side
characterisation of `s.split(c).last()`; the two are related by
`splitOnChar_getLastD`. -/
def afterLast (c : Char) : Str → Str
  | [] => []
  | x :: xs => if c ∈ xs then afterLast c xs else if x = c then xs else x :: afterLast c xs

/-- The portion of `s` strictly before the last occurrence of `c`
(empty when `c` does not occur), mirroring the `before` half of Rust's
`split_file_at_dot`. -/
def beforeLast (c : Char) : Str → Str
  | [] => []
  | x :: xs => if c ∈ xs then x :: beforeLast c xs else []

/-- Rust `Path::file_name` for Unix paths: the last normal component
(components split on `/`, with empty and `.` components normalised away);
`none` when the path ends in `..` or has no component. -/
def rustFileName (p : Str) : Option Str :=
  let comps := (splitOnChar '/' p).filter (fun c => decide (¬(c = [] ∨ c = ['.'])))
  match comps.getLast? with
  | none => none
  | some c => if c = ['.', '.'] then none else some c

/-- Rust `split_file_at_dot` followed by `before.or(after)`: the stem of a
file name (everything before the final `.`, or the whole name when there is
no `.` or when the only `.` is leading). -/
def rustFileStemOfName (name : Str) : Str :=
  if name = ['.', '.'] then name
  else if '.' ∈ name then
    let before := beforeLast '.' name
    if before = [] then name else before
  else name

/-- Rust `Path::file_stem`. -/
def rustFileStem (p : Str) : Option Str :=
  (rustFileName p).map rustFileStemOfName

/-- Source `is_git_binary` of the Rust source: the file stem of the token equals `git`
ignoring ASCII case. -/
def is_git_binary (git : Str) : Bool :=
  match rustFileStem git with
  | some s => eqIgnoreAsciiCase s ("git".data)
  | none => false

/-- Source `ProcessArgs<T>`: the tri-state classifier outcome. -/
inductive ProcessArgs (T : Type) where
  | Args (t : T)
  | ArgError
  | OtherProcess
deriving DecidableEq

/-- Source `CallingProcess`.  The Rust `HashSet<String>` option-key
sets become `Finset Str`. -/
inductive CallingProcess where
  | GitShow (ext : Str)
  | GitGrep (longs : Finset Str) (shorts : Finset Str)
  | OtherGrep
deriving DecidableEq

/-- Source `skip_uninteresting_args` of the Rust source.  The loop is translated arm by
arm: `--` passes the remaining arguments through verbatim; an argument of the
skip set also consumes the following argument; other arguments starting with
`-` are dropped; the rest are positional.  The skip set is the first
parameter here because membership is all that is used of the Rust `HashSet`. -/
def skip_uninteresting_args (skips : List Str) : List Str → List Str
  | [] => []
  | [a] =>
    if a = ['-', '-'] then []
    else if a ∈ skips then []
    else if startsWithDash a then []
    else [a]
  | a :: b :: rest =>
    if a = ['-', '-'] then b :: rest
    else if a ∈ skips then skip_uninteresting_args skips rest
    else if startsWithDash a then skip_uninteresting_args skips (b :: rest)
    else a :: skip_uninteresting_args skips (b :: rest)

/-- The blame options taking a parameter, exactly as the source builds them:
one string split on spaces. -/
def git_blame_options_with_parameter : List Str :=
  splitOnChar ' ' ("-C -c -L --since --ignore-rev --ignore-revs-file --contents --reverse --date".data)

/-- Source `guess_git_blame_filename_extension` of the Rust source. -/
def guess_git_blame_filename_extension (args : List Str) : ProcessArgs Str :=
  match skip_uninteresting_args git_blame_options_with_parameter args with
  | git :: b :: rest =>
    if b = ("blame".data) ∧ is_git_binary git = true then
      match rest with
      | [] => ProcessArgs.ArgError
      | r :: rs =>
        ProcessArgs.Args ((splitOnChar '.' ((r :: rs).getLast (List.cons_ne_nil r rs))).getLastD [])
    else ProcessArgs.OtherProcess
  | _ => ProcessArgs.OtherProcess

/-- Source `parse_command_option_keys` of the Rust source: collect long and short option
keys up to a bare `--`. -/
def parse_command_option_keys : List Str → Finset Str × Finset Str
  | [] => (∅, ∅)
  | s :: rest =>
    if s = ['-', '-'] then (∅, ∅)
    else
      let acc := parse_command_option_keys rest
      if (['-', '-'] : Str).isPrefixOf s then
        (insert (s.takeWhile (fun c => decide (c ≠ '='))) acc.1, acc.2)
      else
        match s with
        | '-' :: suffix => (acc.1, acc.2 ∪ (suffix.map (fun c => ['-', c])).toFinset)
        | _ => acc

/-- Source `get_git_show_file_extension` of the Rust source.  Note that the skip set it
passes to `skip_uninteresting_args` is `"".split(' ')`, i.e. the singleton
containing the empty string. -/
def get_git_show_file_extension (args : List Str) : Option Str :=
  match (skip_uninteresting_args (splitOnChar ' ' []) args).getLast? with
  | some last_arg =>
    match splitOnceChar ':' last_arg with
    | some pr => (splitOnChar '.' pr.2).getLast?
    | none => none
  | none => none

/-- The `skip_while(|s| *s != "grep" && *s != "show")` predicate. -/
def notGrepShow (t : Str) : Bool :=
  decide (¬(t = ("grep".data) ∨ t = ("show".data)))

/-- Source `describe_calling_process` of the Rust source. -/
def describe_calling_process (args : List Str) : ProcessArgs CallingProcess :=
  match args with
  | [] => ProcessArgs.OtherProcess
  | command :: rest =>
    match rustFileStem command with
    | some s =>
      if is_git_binary s then
        match rest.dropWhile notGrepShow with
        | sub :: rest2 =>
          if sub = ("grep".data) then
            ProcessArgs.Args (CallingProcess.GitGrep (parse_command_option_keys rest2).1
              (parse_command_option_keys rest2).2)
          else if sub = ("show".data) then
            match get_git_show_file_extension rest2 with
            | some ext => ProcessArgs.Args (CallingProcess.GitShow ext)
            | none => ProcessArgs.ArgError
          else ProcessArgs.ArgError
        | [] => ProcessArgs.ArgError
      else if ["rg".data, "ack".data, "sift".data].any (fun o => eqIgnoreAsciiCase o s) then
        ProcessArgs.Args CallingProcess.OtherGrep
      else ProcessArgs.OtherProcess
    | none => ProcessArgs.OtherProcess

/-- One process record of the table model, mirroring the fields of the
`ProcActions` trait (and of the test double `FakeProc`): command line,
parent pid and start time.  Pids are modelled as `Int` (the `sysinfo` pid is
a signed machine integer and the code computes `pid - 1`); start times are
the mathematical value of the `u64`. -/
structure FakeProc where
  start_time : Nat
  cmd : List Str
  ppid : Option Int
deriving DecidableEq

/-- The process table (the `ProcessInterface` of the Rust source with refreshes
modelled as always succeeding, as in the source's `MockProcInfo`).  The list
order models the iteration order of the Rust `HashMap`. -/
structure ProcTable where
  procs : List (Int × FakeProc)
deriving DecidableEq

/-- Source `process(pid)`: lookup in the table. -/
def ProcTable.lookup (t : ProcTable) (pid : Int) : Option FakeProc :=
  (t.procs.find? (fun e => decide (e.1 = pid))).map (fun e => e.2)

/-- Source `parent_process` of the Rust source (with `refresh_process` always
succeeding): look the process up, follow its parent id, look the parent up. -/
def parent_process (t : ProcTable) (pid : Int) : Option FakeProc :=
  match t.lookup pid with
  | none => none
  | some proc =>
    match proc.ppid with
    | none => none
    | some pp => t.lookup pp

/-- Source `naive_sibling_process` of the Rust source: the process with pid `pid - 1`. -/
def naive_sibling_process (t : ProcTable) (pid : Int) : Option FakeProc :=
  t.lookup (pid - 1)

/-- Source `inner_iter_parents` of the Rust source: walk to the parent, reporting
`(parent pid, distance)` pairs, stopping as soon as `distance > 2000`, the
process is unknown, or it has no parent.  The extra `fuel` argument only
makes the recursion structural; it starts at `2001` and cannot run out
before the `distance > 2000` guard fires. -/
def inner_iter_parents (t : ProcTable) : Int → Nat → Nat → List (Int × Nat)
  | _, _, 0 => []
  | pid, distance, fuel + 1 =>
    if distance > 2000 then []
    else
      match t.lookup pid with
      | none => []
      | some proc =>
        match proc.ppid with
        | none => []
        | some pp => (pp, distance) :: inner_iter_parents t pp (distance + 1) fuel

/-- Source `iter_parents` of the Rust source, reified as the list of `(pid, distance)`
pairs passed to the callback, in call order. -/
def iter_parents_list (t : ProcTable) (starting_pid : Int) : List (Int × Nat) :=
  inner_iter_parents t starting_pid 1 2001

/-- The `pid_distances` map of `find_sibling_process`: `HashMap::insert` in
call order, so the LAST inserted distance for a pid wins. -/
def lookup_distance (l : List (Int × Nat)) (p : Int) : Option Nat :=
  (l.reverse.find? (fun pd => decide (pd.1 = p))).map (fun pd => pd.2)

/-- Source `usize::MAX`: the sentinel chain length of `find_sibling_process`. -/
def usizeMAX : Nat := 2 ^ 64 - 1

/-- The `sum_distance` closure of `find_sibling_process`: walking up from a
candidate, the first ancestor found in `pid_distances` fixes the chain
length as its recorded distance plus the candidate's distance; the sentinel
`usize::MAX` stands when no ancestor is shared. -/
def length_of_process_chain (pdist : List (Int × Nat)) (parents : List (Int × Nat)) : Nat :=
  match parents.findSome? (fun pd => (lookup_distance pdist pd.1).map (fun d0 => d0 + pd.2)) with
  | some n => n
  | none => usizeMAX

/-- Source `process_start_time_difference_less_than_3s` of the Rust source:
`(a as i64 - b as i64).abs() < 3`.  The `u64 → i64` casts wrap: a value
`≥ 2^63` becomes negative. -/
def i64ofU64 (x : Nat) : Int :=
  if x % 2 ^ 64 < 2 ^ 63 then (x % 2 ^ 64 : Nat) else (x % 2 ^ 64 : Nat) - 2 ^ 64

def process_start_time_difference_less_than_3s (a b : Nat) : Bool :=
  decide ((i64ofU64 a - i64ofU64 b).natAbs < 3)

/-- Rust `Iterator::min_by_key`, which returns the LAST of several equal
minima, reified as a fold over the (key, value) pairs. -/
def min_by_key_aux {α : Type} (acc : Option (Nat × α)) : List (Nat × α) → Option (Nat × α)
  | [] => acc
  | x :: rest =>
    min_by_key_aux
      (match acc with
       | none => some x
       | some m => if x.1 ≤ m.1 then some x else some m)
      rest

/-- Source `find_sibling_process` of the Rust source: build the current process's
ancestor-distance map, filter the whole table by start-time proximity,
classify each survivor, compute each match's chain length, and return the
match with the minimal chain length. -/
def find_sibling_process {T : Type} (t : ProcTable) (pid : Int)
    (extract_args : List Str → ProcessArgs T) : Option T :=
  match t.lookup pid with
  | none => none
  | some this_proc =>
    let pdist := iter_parents_list t pid
    let matched :=
      (t.procs.filter (fun e =>
        process_start_time_difference_less_than_3s this_proc.start_time e.2.start_time)).filterMap
        (fun e =>
          match extract_args e.2.cmd with
          | ProcessArgs.Args a =>
            some (length_of_process_chain pdist (iter_parents_list t e.1), a)
          | _ => none)
    (min_by_key_aux none matched).map (fun m => m.2)

/-- Source `calling_process_cmdline` of the Rust source (production path, the test-only
`FakeParentArgs` hook elided): parent tier, then naive sibling tier, then
the whole-table tier.  A missing parent (`?`) returns `none` immediately. -/
def calling_process_cmdline {T : Type} (t : ProcTable) (my_pid : Int)
    (extract_args : List Str → ProcessArgs T) : Option T :=
  match parent_process t my_pid with
  | none => none
  | some parent =>
    match extract_args parent.cmd with
    | ProcessArgs.Args result => some result
    | ProcessArgs.ArgError => none
    | ProcessArgs.OtherProcess =>
      match naive_sibling_process t my_pid with
      | some proc =>
        match extract_args proc.cmd with
        | ProcessArgs.Args result => some result
        | _ => find_sibling_process t my_pid extract_args
      | none => find_sibling_process t my_pid extract_args

/-- After scanning `pre`, is the loop of `skip_uninteresting_args` about to
consume the next argument as the parameter of a skip-set option?  True
exactly when the scan of `pre` ends on an unconsumed skip-set token. -/
def ends_consuming_parameter (skips : List Str) : List Str → Bool
  | [] => false
  | [a] => decide (¬a = ['-', '-']) && decide (a ∈ skips)
  | a :: b :: rest =>
    if a = ['-', '-'] then false
    else if a ∈ skips then ends_consuming_parameter skips rest
    else ends_consuming_parameter skips (b :: rest)

/-- Table for the C1 counterexample: the current process (pid 3) has no
parent id, and the process with pid 2 = 3 - 1 is a matching `git blame`. -/
def tableNoParent : ProcTable :=
  ProcTable.mk
    [(2, FakeProc.mk 100 (["git", "blame", "hello.txt"].map String.data) none),
     (3, FakeProc.mk 100 (["delta"].map String.data) none)]

/-- Table for the C2 counterexample and witness: the current process (pid 1)
is the only process of the table, and its own argv is a `git blame`. -/
def tableSelfMatch : ProcTable :=
  ProcTable.mk [(1, FakeProc.mk 100 (["git", "blame", "foo.txt"].map String.data) none)]

/-- Table for the C1 witness, sibling part: the parent (pid 2) classifies as
`OtherProcess` and the naive sibling (pid 3 = 4 - 1) matches. -/
def tableSiblingMatch : ProcTable :=
  ProcTable.mk
    [(2, FakeProc.mk 100 (["-shell"].map String.data) none),
     (3, FakeProc.mk 100 (["git", "blame", "hello.txt"].map String.data) (some 2)),
     (4, FakeProc.mk 100 (["delta"].map String.data) (some 2))]

/-- Table for the C3 witness: the parent (pid 3) is a malformed `git blame`
while another process of the table (pid 2) would match. -/
def tableMalformedParent : ProcTable :=
  ProcTable.mk
    [(2, FakeProc.mk 100 (["git", "blame", "ok.txt"].map String.data) none),
     (3, FakeProc.mk 100 (["git", "blame", "--help.txt"].map String.data) (some 2)),
     (4, FakeProc.mk 100 (["delta"].map String.data) (some 3))]

theorem splitOnChar_ne_nil (c : Char) (s : Str) : splitOnChar c s ≠ [] := by
  induction s with
  | nil => simp [splitOnChar]
  | cons x xs ih =>
    simp only [splitOnChar]
    cases h : splitOnChar c xs with
    | nil => simp
    | cons r rs =>
      by_cases hx : x = c <;> simp [hx]

theorem splitOnChar_not_mem {c : Char} {s : Str} (h : c ∉ s) : splitOnChar c s = [s] := by
  induction s with
  | nil => simp [splitOnChar]
  | cons x xs ih =>
    have hx : ¬x = c := fun he => h (he ▸ List.mem_cons_self x xs)
    have hxs : c ∉ xs := fun hm => h (List.mem_cons_of_mem x hm)
    simp only [splitOnChar, ih hxs]
    simp [hx]

theorem two_le_splitOnChar_length {c : Char} {s : Str} (h : c ∈ s) :
    2 ≤ (splitOnChar c s).length := by
  induction s with
  | nil => cases h
  | cons x xs ih =>
    simp only [splitOnChar]
    cases hs : splitOnChar c xs with
    | nil => exact absurd hs (splitOnChar_ne_nil c xs)
    | cons r rs =>
      by_cases hx : x = c
      · simp [hx]
      · have hxs : c ∈ xs := by
          rcases List.mem_cons.mp h with h1 | h2
          · exact absurd h1.symm hx
          · exact h2
        have := ih hxs
        rw [hs] at this
        simp only [List.length_cons] at this ⊢
        simp [hx]
        omega

theorem afterLast_not_mem {c : Char} {s : Str} (h : c ∉ s) : afterLast c s = s := by
  induction s with
  | nil => rfl
  | cons x xs ih =>
    have hx : ¬x = c := fun he => h (he ▸ List.mem_cons_self x xs)
    have hxs : c ∉ xs := fun hm => h (List.mem_cons_of_mem x hm)
    simp [afterLast, hxs, hx, ih hxs]

/-- The bridge between the source's `split(c).last()` and the
specification's "segment after the last occurrence of `c`". -/
theorem splitOnChar_getLast? (c : Char) (s : Str) :
    (splitOnChar c s).getLast? = some (afterLast c s) := by
  induction s with
  | nil => rfl
  | cons x xs ih =>
    simp only [splitOnChar, afterLast]
    cases hs : splitOnChar c xs with
    | nil => exact absurd hs (splitOnChar_ne_nil c xs)
    | cons r rs =>
      rw [hs] at ih
      by_cases hx : x = c
      · simp only [hx, if_pos rfl, if_true]
        rw [List.getLast?_cons_cons]
        rw [ih]
        by_cases hc : c ∈ xs
        · simp [hc]
        · simp [hc, afterLast_not_mem hc]
      · simp only [if_neg hx]
        by_cases hc : c ∈ xs
        · have h2 := two_le_splitOnChar_length hc
          rw [hs] at h2
          cases rs with
          | nil => simp at h2
          | cons r2 rs2 =>
            rw [List.getLast?_cons_cons, ← List.getLast?_cons_cons (a := r)]
            rw [ih]
            simp [hc]
        · have := splitOnChar_not_mem hc
          rw [hs] at this
          injection this with h1 h2
          subst h1
          subst h2
          simp [hc, hx, afterLast_not_mem hc]

/-- The `split(c).last()` value in the `getLastD` form used by the blame guesser. -/
theorem splitOnChar_getLastD (c : Char) (s : Str) :
    (splitOnChar c s).getLastD [] = afterLast c s := by
  rw [List.getLastD_eq_getLast?, splitOnChar_getLast?]
  rfl

example : guess_git_blame_filename_extension (["git", "blame", "hello", "world.txt"].map String.data)
    = ProcessArgs.Args ("txt".data) := by decide
example : guess_git_blame_filename_extension
      (["git", "blame", "-s", "-f", "hello.txt", "--date=2015", "--date", "now"].map String.data)
    = ProcessArgs.Args ("txt".data) := by decide
example : guess_git_blame_filename_extension (["git", "blame", "--", "--not.an.argument"].map String.data)
    = ProcessArgs.Args ("argument".data) := by decide
example : guess_git_blame_filename_extension (["foo", "bar", "-a", "--123", "not.git"].map String.data)
    = ProcessArgs.OtherProcess := by decide
example : guess_git_blame_filename_extension (["git", "blame", "--help.txt"].map String.data)
    = ProcessArgs.ArgError := by decide
example : guess_git_blame_filename_extension (["git", "-c", "a=b", "blame", "main.rs"].map String.data)
    = ProcessArgs.Args ("rs".data) := by decide
example : guess_git_blame_filename_extension (["git", "blame", "README"].map String.data)
    = ProcessArgs.Args ("README".data) := by decide
example : describe_calling_process (["/usr/local/bin/git", "show", "775c3b84:./src/hello.rs"].map String.data)
    = ProcessArgs.Args (CallingProcess.GitShow ("rs".data)) := by decide
example : describe_calling_process (["/usr/local/bin/git", "show", "HEAD~1:Makefile"].map String.data)
    = ProcessArgs.Args (CallingProcess.GitShow ("Makefile".data)) := by decide
example : describe_calling_process (["git", "-c", "x.y=z", "show", "--abbrev-commit", "775c3b84:./src/hello.bye.R"].map String.data)
    = ProcessArgs.Args (CallingProcess.GitShow ("R".data)) := by decide
example : describe_calling_process (["Git.exe", "grep", "pattern", "hello.txt"].map String.data)
    = ProcessArgs.Args (CallingProcess.GitGrep ∅ ∅) := by decide
example : describe_calling_process (["/usr/local/bin/rg", "pattern", "hello.txt"].map String.data)
    = ProcessArgs.Args CallingProcess.OtherGrep := by decide
example : describe_calling_process (["RG.exe", "pattern", "hello.txt"].map String.data)
    = ProcessArgs.Args CallingProcess.OtherGrep := by decide
example : calling_process_cmdline (ProcTable.mk []) 1 guess_git_blame_filename_extension
    = none := by decide
example : calling_process_cmdline
      (ProcTable.mk
        [(2, FakeProc.mk 100 (["-shell"].map String.data) none),
         (3, FakeProc.mk 100 (["git", "blame", "hello.txt"].map String.data) (some 2)),
         (4, FakeProc.mk 100 (["delta"].map String.data) (some 3))])
      4 guess_git_blame_filename_extension
    = some ("txt".data) := by decide
example : calling_process_cmdline
      (ProcTable.mk
        [(2, FakeProc.mk 100 (["-shell"].map String.data) none),
         (3, FakeProc.mk 100 (["git", "blame", "src/main.rs"].map String.data) (some 2)),
         (4, FakeProc.mk 100 (["call_delta.sh"].map String.data) (some 3)),
         (5, FakeProc.mk 100 (["delta"].map String.data) (some 4))])
      5 guess_git_blame_filename_extension
    = some ("rs".data) := by decide

/-- Claim C3: for every process table, if the current process's parent
exists and its argv classifies as `Malformed` (`ArgError`), the ancestry
search returns `none` immediately; in particular the result is `none`
whatever else the table contains (matching siblings or matching
whole-table candidates included). -/
theorem parent_malformed_returns_none {T : Type} (t : ProcTable) (pid : Int)
    (extract_args : List Str → ProcessArgs T) (pproc : FakeProc)
    (hp : parent_process t pid = some pproc)
    (he : extract_args pproc.cmd = ProcessArgs.ArgError) :
    calling_process_cmdline t pid extract_args = none := by
  simp only [calling_process_cmdline, hp, he]

/-- Witness for C3: in `tableMalformedParent` the parent of pid 4 is
`git blame --help.txt` (malformed), a matching process exists at pid 2,
and the search still returns `none`. -/
theorem parent_malformed_returns_none_witness :
    calling_process_cmdline tableMalformedParent 4 guess_git_blame_filename_extension = none :=
  parent_malformed_returns_none tableMalformedParent 4 guess_git_blame_filename_extension
    (FakeProc.mk 100 (["git", "blame", "--help.txt"].map String.data) (some 2))
    (by decide) (by decide)

/-- Claim C5: whenever option-skipping of an argv with the blame option set
yields a git binary, the token `blame`, and at least one positional
argument, the blame guesser returns `Matched` with the substring after the
final `.` of the last positional argument, or the whole argument when it
contains no `.`. -/
theorem blame_last_positional_extension (args : List Str) (git : Str) (ps : List Str)
    (hsel : skip_uninteresting_args git_blame_options_with_parameter args
      = git :: ("blame".data) :: ps)
    (hps : ps ≠ [])
    (hgit : is_git_binary git = true) :
    guess_git_blame_filename_extension args
      = ProcessArgs.Args
          (if '.' ∈ ps.getLast hps then afterLast '.' (ps.getLast hps)
           else ps.getLast hps) := by
  cases ps with
  | nil => exact absurd rfl hps
  | cons r rs =>
    simp only [guess_git_blame_filename_extension, hsel, hgit, eq_self_iff_true, and_self,
      if_true, splitOnChar_getLastD]
    by_cases hdot : '.' ∈ (r :: rs).getLast (List.cons_ne_nil r rs)
    · simp [hdot]
    · simp [hdot, afterLast_not_mem hdot]

/-- Witness for C5 at `git blame hello world.txt`. -/
theorem blame_last_positional_extension_witness :
    guess_git_blame_filename_extension (["git", "blame", "hello", "world.txt"].map String.data)
      = ProcessArgs.Args ("txt".data) := by
  have h := blame_last_positional_extension
    (["git", "blame", "hello", "world.txt"].map String.data)
    ("git".data) (["hello", "world.txt"].map String.data)
    (by decide) (by decide) (by decide)
  rw [h]
  decide

/-- Claim C9: whenever option-skipping of an argv with the blame option set
yields exactly a git binary followed by the token `blame` (zero positional
arguments), the blame guesser returns `Malformed` (`ArgError`), not
`NotThisProcess` (`OtherProcess`). -/
theorem blame_no_positional_arg_error (args : List Str) (git : Str)
    (hsel : skip_uninteresting_args git_blame_options_with_parameter args
      = [git, "blame".data])
    (hgit : is_git_binary git = true) :
    guess_git_blame_filename_extension args = ProcessArgs.ArgError := by
  simp only [guess_git_blame_filename_extension, hsel, hgit, eq_self_iff_true, and_self, if_true]

/-- Witness for C9 at `git blame -s`. -/
theorem blame_no_positional_arg_error_witness :
    guess_git_blame_filename_extension (["git", "blame", "-s"].map String.data)
      = ProcessArgs.ArgError :=
  blame_no_positional_arg_error (["git", "blame", "-s"].map String.data) ("git".data)
    (by decide) (by decide)

/-- Claim C8: `git grep -ab --function-context -n --show-function -W
--foo=val pattern file` classifies as `Matched (GitGrep)` with exactly the
long keys `--function-context`, `--show-function`, `--foo` and exactly the
short keys `-a`, `-b`, `-n`, `-W`. -/
theorem git_grep_option_keys_example :
    describe_calling_process
        (["git", "grep", "-ab", "--function-context", "-n", "--show-function", "-W",
          "--foo=val", "pattern", "file"].map String.data)
      = ProcessArgs.Args (CallingProcess.GitGrep
          (parse_command_option_keys (["-ab", "--function-context", "-n", "--show-function",
            "-W", "--foo=val", "pattern", "file"].map String.data)).1
          (parse_command_option_keys (["-ab", "--function-context", "-n", "--show-function",
            "-W", "--foo=val", "pattern", "file"].map String.data)).2) ∧
    (parse_command_option_keys (["-ab", "--function-context", "-n", "--show-function",
        "-W", "--foo=val", "pattern", "file"].map String.data)).1
      = {"--function-context".data, "--show-function".data, "--foo".data} ∧
    (parse_command_option_keys (["-ab", "--function-context", "-n", "--show-function",
        "-W", "--foo=val", "pattern", "file"].map String.data)).2
      = {"-a".data, "-b".data, "-n".data, "-W".data} := by
  refine ⟨rfl, by decide, by decide⟩

/-- Claim C10: both public classifiers are total functions into the
tri-state outcome (for every argv, the empty one and ones holding empty
strings included, the result is `Args`, `ArgError` or `OtherProcess`), the
empty argv yields `OtherProcess` (`NotThisProcess`) for both, and the
`split('.').last()` calls they rely on can never fail because a split is
always nonempty. -/
theorem classifiers_total :
    describe_calling_process [] = ProcessArgs.OtherProcess ∧
    guess_git_blame_filename_extension [] = ProcessArgs.OtherProcess ∧
    (∀ args : List Str,
      (∃ cp, describe_calling_process args = ProcessArgs.Args cp) ∨
      describe_calling_process args = ProcessArgs.ArgError ∨
      describe_calling_process args = ProcessArgs.OtherProcess) ∧
    (∀ args : List Str,
      (∃ ext, guess_git_blame_filename_extension args = ProcessArgs.Args ext) ∨
      guess_git_blame_filename_extension args = ProcessArgs.ArgError ∨
      guess_git_blame_filename_extension args = ProcessArgs.OtherProcess) ∧
    (∀ (c : Char) (s : Str), 0 < (splitOnChar c s).length) := by
  refine ⟨rfl, rfl, ?_, ?_, ?_⟩
  · intro args
    cases h : describe_calling_process args with
    | Args cp => exact Or.inl ⟨cp, rfl⟩
    | ArgError => exact Or.inr (Or.inl rfl)
    | OtherProcess => exact Or.inr (Or.inr rfl)
  · intro args
    cases h : guess_git_blame_filename_extension args with
    | Args ext => exact Or.inl ⟨ext, rfl⟩
    | ArgError => exact Or.inr (Or.inl rfl)
    | OtherProcess => exact Or.inr (Or.inr rfl)
  · intro c s
    exact List.length_pos.mpr (splitOnChar_ne_nil c s)

/-- Counterexample to claim C1: in `tableNoParent` the current process
(pid 3) has no parent id and the naive sibling (pid 2) classifies as
`Matched("txt")`, yet the search returns `none` — the missing parent does
NOT fall through to the sibling tier (the `?` on `parent_process` returns
immediately). -/
theorem missing_parent_counterexample :
    parent_process tableNoParent 3 = none ∧
    naive_sibling_process tableNoParent 3
      = some (FakeProc.mk 100 (["git", "blame", "hello.txt"].map String.data) none) ∧
    guess_git_blame_filename_extension (["git", "blame", "hello.txt"].map String.data)
      = ProcessArgs.Args ("txt".data) ∧
    calling_process_cmdline tableNoParent 3 guess_git_blame_filename_extension = none := by
  refine ⟨by decide, by decide, by decide, by decide⟩

/-- Claim C1 as amended: a missing or unreadable parent makes the search
return `none` immediately; the fall-through to the sibling tier happens
only when the parent exists and classifies as `NotThisProcess`
(`OtherProcess`), and then a `Matched` naive sibling (pid - 1) wins without
the whole-table tier. -/
theorem parent_tier_gate {T : Type} (t : ProcTable) (pid : Int)
    (extract_args : List Str → ProcessArgs T) :
    (parent_process t pid = none → calling_process_cmdline t pid extract_args = none) ∧
    (∀ (pproc sib : FakeProc) (r : T),
      parent_process t pid = some pproc →
      extract_args pproc.cmd = ProcessArgs.OtherProcess →
      naive_sibling_process t pid = some sib →
      extract_args sib.cmd = ProcessArgs.Args r →
      calling_process_cmdline t pid extract_args = some r) := by
  constructor
  · intro h
    simp only [calling_process_cmdline, h]
  · intro pproc sib r hp he hs hr
    simp only [calling_process_cmdline, hp, he, hs, hr]

/-- Witness for C1 (amended): pid 3 of `tableNoParent` has no parent and
gets `none`; pid 4 of `tableSiblingMatch` has a `-shell` parent and a
matching sibling at pid 3 and gets the sibling's result. -/
theorem parent_tier_gate_witness :
    calling_process_cmdline tableNoParent 3 guess_git_blame_filename_extension = none ∧
    calling_process_cmdline tableSiblingMatch 4 guess_git_blame_filename_extension
      = some ("txt".data) := by
  constructor
  · exact (parent_tier_gate tableNoParent 3 guess_git_blame_filename_extension).1 (by decide)
  · exact (parent_tier_gate tableSiblingMatch 4 guess_git_blame_filename_extension).2
      (FakeProc.mk 100 (["-shell"].map String.data) none)
      (FakeProc.mk 100 (["git", "blame", "hello.txt"].map String.data) (some 2))
      ("txt".data) (by decide) (by decide) (by decide) (by decide)

theorem inner_iter_parents_bounded (t : ProcTable) :
    ∀ (fuel : Nat) (pid : Int) (distance : Nat),
      (inner_iter_parents t pid distance fuel).length ≤ 2001 - distance ∧
      (inner_iter_parents t pid distance fuel).all (fun pd => decide (pd.2 ≤ 2000)) = true := by
  intro fuel
  induction fuel with
  | zero => intro pid distance; simp [inner_iter_parents]
  | succ fuel ih =>
    intro pid distance
    by_cases hd : distance > 2000
    · simp [inner_iter_parents, hd]
    · cases hl : t.lookup pid with
      | none => simp [inner_iter_parents, hd, hl]
      | some proc =>
        cases hpp : proc.ppid with
        | none => simp [inner_iter_parents, hd, hl, hpp]
        | some pp =>
          have hstep : inner_iter_parents t pid distance (fuel + 1)
              = (pp, distance) :: inner_iter_parents t pp (distance + 1) fuel := by
            simp [inner_iter_parents, hd, hl, hpp]
          have h2 := ih pp (distance + 1)
          rw [hstep]
          constructor
          · rw [List.length_cons]
            have := h2.1
            omega
          · rw [List.all_cons, Bool.and_eq_true, decide_eq_true_eq]
            exact ⟨by omega, h2.2⟩

/-- Claim C4: the ancestor walk terminates on every process table (cyclic
or corrupted parent links included), visiting at most 2000 hops, each at a
recorded distance of at most 2000. -/
theorem iter_parents_bounded (t : ProcTable) (pid : Int) :
    (iter_parents_list t pid).length ≤ 2000 ∧
    (iter_parents_list t pid).all (fun pd => decide (pd.2 ≤ 2000)) = true := by
  have h := inner_iter_parents_bounded t 2001 pid 1
  exact ⟨le_trans h.1 (by omega), h.2⟩

/-- Counterexample to claim C7: with the blame skip set, in
`-C -- -x` the token `-C` consumes `--` as its parameter, so the scan never
sees the `--` and the token `-x`, although positioned after a literal `--`,
is dropped as an option instead of appearing in the positional output
(which is empty). -/
theorem ddash_consumed_counterexample :
    skip_uninteresting_args git_blame_options_with_parameter
        (["-C", "--", "-x"].map String.data) = [] := by
  decide

/-- Claim C7 as amended: every token positioned after a literal `--` token
appears in the positional output, in order (the tokens after the `--` are a
suffix of the output), provided the scan of the tokens before that `--`
does not end expecting a parameter — that is, provided the `--` is not
itself consumed as the parameter of a preceding parameter-consuming
option. -/
theorem ddash_passthrough (skips : List Str) (post : List Str) :
    ∀ pre : List Str, ends_consuming_parameter skips pre = false →
      post <:+ skip_uninteresting_args skips (pre ++ ['-', '-'] :: post)
  | [] => fun _ => by
    cases post with
    | nil => exact List.nil_suffix
    | cons b rest =>
      have hred : skip_uninteresting_args skips (['-', '-'] :: b :: rest) = b :: rest := by
        simp [skip_uninteresting_args]
      show b :: rest <:+ skip_uninteresting_args skips (['-', '-'] :: b :: rest)
      rw [hred]
  | [a] => fun h => by
    show post <:+ skip_uninteresting_args skips (a :: ['-', '-'] :: post)
    by_cases ha : a = ['-', '-']
    · have hred : skip_uninteresting_args skips (a :: ['-', '-'] :: post)
          = ['-', '-'] :: post := by
        simp [skip_uninteresting_args, ha]
      rw [hred]
      exact (List.suffix_cons _ _)
    · by_cases hm : a ∈ skips
      · simp [ends_consuming_parameter, ha, hm] at h
      · have htail := ddash_passthrough skips post [] rfl
        by_cases hdash : startsWithDash a = true
        · have hred : skip_uninteresting_args skips (a :: ['-', '-'] :: post)
              = skip_uninteresting_args skips (['-', '-'] :: post) := by
            simp [skip_uninteresting_args, ha, hm, hdash]
          rw [hred]
          exact htail
        · have hred : skip_uninteresting_args skips (a :: ['-', '-'] :: post)
              = a :: skip_uninteresting_args skips (['-', '-'] :: post) := by
            simp [skip_uninteresting_args, ha, hm, hdash]
          rw [hred]
          exact htail.trans (List.suffix_cons _ _)
  | a :: b :: pre2 => fun h => by
    show post <:+ skip_uninteresting_args skips (a :: b :: (pre2 ++ ['-', '-'] :: post))
    by_cases ha : a = ['-', '-']
    · have hred : skip_uninteresting_args skips (a :: b :: (pre2 ++ ['-', '-'] :: post))
          = b :: (pre2 ++ ['-', '-'] :: post) := by
        simp [skip_uninteresting_args, ha]
      rw [hred]
      exact ⟨b :: pre2 ++ [['-', '-']], by simp⟩
    · by_cases hm : a ∈ skips
      · have h2 : ends_consuming_parameter skips pre2 = false := by
          simpa [ends_consuming_parameter, ha, hm] using h
        have hred : skip_uninteresting_args skips (a :: b :: (pre2 ++ ['-', '-'] :: post))
            = skip_uninteresting_args skips (pre2 ++ ['-', '-'] :: post) := by
          simp [skip_uninteresting_args, ha, hm]
        rw [hred]
        exact ddash_passthrough skips post pre2 h2
      · have h2 : ends_consuming_parameter skips (b :: pre2) = false := by
          simpa [ends_consuming_parameter, ha, hm] using h
        have htail := ddash_passthrough skips post (b :: pre2) h2
        by_cases hdash : startsWithDash a = true
        · have hred : skip_uninteresting_args skips (a :: b :: (pre2 ++ ['-', '-'] :: post))
              = skip_uninteresting_args skips ((b :: pre2) ++ ['-', '-'] :: post) := by
            simp [skip_uninteresting_args, ha, hm, hdash]
          rw [hred]
          exact htail
        · have hred : skip_uninteresting_args skips (a :: b :: (pre2 ++ ['-', '-'] :: post))
              = a :: skip_uninteresting_args skips ((b :: pre2) ++ ['-', '-'] :: post) := by
            simp [skip_uninteresting_args, ha, hm, hdash]
          rw [hred]
          exact htail.trans (List.suffix_cons _ _)

/-- Witness for C7 (amended): for `git blame -s -- -not.an.option` nothing
before the `--` expects a parameter and the tokens after the `--` are a
suffix of the positional output. -/
theorem ddash_passthrough_witness :
    ["-not.an.option".data]
      <:+ skip_uninteresting_args git_blame_options_with_parameter
            ((["git", "blame", "-s"].map String.data) ++ ['-', '-'] :: ["-not.an.option".data]) :=
  ddash_passthrough git_blame_options_with_parameter ["-not.an.option".data]
    (["git", "blame", "-s"].map String.data) (by decide)

/-- Counterexample to claim C6: for `git show HEAD~1:Makefile` the suffix
after the `:` contains no `.` (no extension), yet the outcome is
`Matched (GitShow "Makefile")`, not `Malformed` — the whole suffix is used
as the extension. -/
theorem git_show_no_dot_counterexample :
    describe_calling_process (["git", "show", "HEAD~1:Makefile"].map String.data)
      = ProcessArgs.Args (CallingProcess.GitShow ("Makefile".data)) ∧
    decide ('.' ∈ ("Makefile".data : Str)) = false := by
  refine ⟨by decide, by decide⟩

/-- Claim C6 as amended: when the first token is a git binary and the
grep/show scan reaches `show`, the remaining tokens go through the
option-skipping primitive (whose skip set is `"".split(' ')`, the singleton
holding the empty string); with no positional argument left, or no `:` in
the last positional argument, the outcome is `Malformed`; with a `:`, the
outcome is `Matched (GitShow e)` where `e` is the segment after the final
`.` of the suffix behind the first `:`, or the entire suffix when it has no
`.`. -/
theorem git_show_extension_characterisation (cmd s : Str) (rest rest2 : List Str)
    (hstem : rustFileStem cmd = some s)
    (hgit : is_git_binary s = true)
    (hshow : rest.dropWhile notGrepShow = ("show".data) :: rest2) :
    (skip_uninteresting_args (splitOnChar ' ' []) rest2 = [] →
      describe_calling_process (cmd :: rest) = ProcessArgs.ArgError) ∧
    (∀ lastp : Str,
      (skip_uninteresting_args (splitOnChar ' ' []) rest2).getLast? = some lastp →
      splitOnceChar ':' lastp = none →
      describe_calling_process (cmd :: rest) = ProcessArgs.ArgError) ∧
    (∀ (lastp pre suf : Str),
      (skip_uninteresting_args (splitOnChar ' ' []) rest2).getLast? = some lastp →
      splitOnceChar ':' lastp = some (pre, suf) →
      describe_calling_process (cmd :: rest)
        = ProcessArgs.Args (CallingProcess.GitShow
            (if '.' ∈ suf then afterLast '.' suf else suf))) := by
  have hng : ¬(("show".data : Str) = "grep".data) := by decide
  have hmain : describe_calling_process (cmd :: rest)
      = match get_git_show_file_extension rest2 with
        | some ext => ProcessArgs.Args (CallingProcess.GitShow ext)
        | none => ProcessArgs.ArgError := by
    simp only [describe_calling_process, hstem, hgit, hshow, eq_self_iff_true, if_true,
      if_neg hng]
  refine ⟨?_, ?_, ?_⟩
  · intro hpos
    have hg : get_git_show_file_extension rest2 = none := by
      simp only [get_git_show_file_extension, hpos, List.getLast?_nil]
    rw [hmain, hg]
  · intro lastp hlast hcolon
    have hg : get_git_show_file_extension rest2 = none := by
      simp only [get_git_show_file_extension, hlast, hcolon]
    rw [hmain, hg]
  · intro lastp pre suf hlast hsplit
    have hg : get_git_show_file_extension rest2 = some (afterLast '.' suf) := by
      simp only [get_git_show_file_extension, hlast, hsplit, splitOnChar_getLast?]
    rw [hmain, hg]
    by_cases hdot : '.' ∈ suf
    · simp [hdot]
    · simp [hdot, afterLast_not_mem hdot]

/-- Witness for C6 (amended): `git show 775c3b84:./src/hello.rs` yields
`Matched (GitShow "rs")` through the characterisation. -/
theorem git_show_extension_characterisation_witness :
    describe_calling_process (["git", "show", "775c3b84:./src/hello.rs"].map String.data)
      = ProcessArgs.Args (CallingProcess.GitShow ("rs".data)) := by
  have h := (git_show_extension_characterisation ("git".data) ("git".data)
      (["show", "775c3b84:./src/hello.rs"].map String.data)
      ["775c3b84:./src/hello.rs".data]
      (by decide) (by decide) (by decide)).2.2
      ("775c3b84:./src/hello.rs".data) ("775c3b84".data) ("./src/hello.rs".data)
      (by decide) (by decide)
  exact h.trans (by decide)

theorem min_by_key_aux_mem {α : Type} :
    ∀ (l : List (Nat × α)) (acc : Option (Nat × α)) (m : Nat × α),
      min_by_key_aux acc l = some m → m ∈ l ∨ acc = some m
  | [], acc, m => fun h => Or.inr (by simpa [min_by_key_aux] using h)
  | x :: rest, acc, m => fun h => by
    simp only [min_by_key_aux] at h
    rcases min_by_key_aux_mem rest _ m h with hm | hacc
    · exact Or.inl (List.mem_cons_of_mem _ hm)
    · cases acc with
      | none =>
        have hx : x = m := by simpa using hacc
        exact Or.inl (hx ▸ List.mem_cons_self x rest)
      | some a =>
        by_cases hle : x.1 ≤ a.1
        · rw [show (match some a with
              | none => some x
              | some m' => if x.1 ≤ m'.1 then some x else some m') = some x from by
                simp [hle]] at hacc
          have hx : x = m := by simpa using hacc
          exact Or.inl (hx ▸ List.mem_cons_self x rest)
        · rw [show (match some a with
              | none => some x
              | some m' => if x.1 ≤ m'.1 then some x else some m') = some a from by
                simp [hle]] at hacc
          exact Or.inr hacc

theorem min_by_key_aux_le {α : Type} :
    ∀ (l : List (Nat × α)) (acc : Option (Nat × α)) (m : Nat × α),
      min_by_key_aux acc l = some m →
      (∀ x ∈ l, m.1 ≤ x.1) ∧ (∀ a : Nat × α, acc = some a → m.1 ≤ a.1)
  | [], acc, m => fun h => by
    have hacc : acc = some m := by simpa [min_by_key_aux] using h
    refine ⟨by simp, ?_⟩
    intro a ha
    rw [hacc] at ha
    cases ha
    exact le_refl _
  | x :: rest, acc, m => fun h => by
    simp only [min_by_key_aux] at h
    have IH := min_by_key_aux_le rest _ m h
    have hmx : m.1 ≤ x.1 := by
      cases acc with
      | none => exact IH.2 x rfl
      | some a =>
        by_cases hle : x.1 ≤ a.1
        · exact IH.2 x (by simp [hle])
        · exact le_trans (IH.2 a (by simp [hle])) (le_of_not_le hle)
    refine ⟨?_, ?_⟩
    · intro y hy
      rcases List.mem_cons.mp hy with hx | hr
      · exact hx ▸ hmx
      · exact IH.1 y hr
    · intro a0 ha0
      cases acc with
      | none => cases ha0
      | some a =>
        cases ha0
        by_cases hle : x.1 ≤ a0.1
        · exact le_trans (IH.2 x (by simp [hle])) hle
        · exact IH.2 a0 (by simp [hle])

/-- Counterexample to claim C2: in `tableSelfMatch` the current process
(pid 1) is the ONLY process of the table, and the whole-table tier still
returns its own match — the code classifies every process passing the
start-time filter, the current one included, contrary to "processes other
than the current one". -/
theorem find_sibling_self_counterexample :
    tableSelfMatch.procs.map (fun e => e.1) = [1] ∧
    find_sibling_process tableSelfMatch 1 guess_git_blame_filename_extension
      = some ("txt".data) := by
  refine ⟨by decide, by decide⟩

/-- Claim C2 as amended: in the whole-table tier the candidates classified
are ALL processes of the table (the current one included) whose
`start_time` differs from the current process's by fewer than 3 clock-tick
units after each `u64` is cast to a signed `i64` (so values `≥ 2^63` wrap),
and the returned data comes from a matched candidate whose total chain
length — the distance recorded for the first ancestor shared with the
current process plus the candidate's distance to it, `usize::MAX` when no
ancestor is shared — is minimal among all matched candidates. -/
theorem find_sibling_minimal {T : Type} (t : ProcTable) (pid : Int)
    (extract_args : List Str → ProcessArgs T) (r : T)
    (h : find_sibling_process t pid extract_args = some r) :
    ∃ this_proc : FakeProc, t.lookup pid = some this_proc ∧
      ∃ (cpid : Int) (cproc : FakeProc),
        (cpid, cproc) ∈ t.procs ∧
        process_start_time_difference_less_than_3s this_proc.start_time cproc.start_time
          = true ∧
        extract_args cproc.cmd = ProcessArgs.Args r ∧
        ∀ (cpid2 : Int) (cproc2 : FakeProc) (r2 : T),
          (cpid2, cproc2) ∈ t.procs →
          process_start_time_difference_less_than_3s this_proc.start_time cproc2.start_time
            = true →
          extract_args cproc2.cmd = ProcessArgs.Args r2 →
          length_of_process_chain (iter_parents_list t pid) (iter_parents_list t cpid)
            ≤ length_of_process_chain (iter_parents_list t pid) (iter_parents_list t cpid2) := by
  rw [find_sibling_process] at h
  cases hl : t.lookup pid with
  | none => rw [hl] at h; cases h
  | some this_proc =>
    rw [hl] at h
    simp only [Option.map_eq_some'] at h
    obtain ⟨m, hmin, hm2⟩ := h
    refine ⟨this_proc, rfl, ?_⟩
    have hmem := min_by_key_aux_mem _ none m hmin
    rcases hmem with hmem | hbad
    case inr => cases hbad
    have hle := (min_by_key_aux_le _ none m hmin).1
    rw [List.mem_filterMap] at hmem
    obtain ⟨e, hef, hfe⟩ := hmem
    rw [List.mem_filter] at hef
    obtain ⟨hep, het⟩ := hef
    cases hx : extract_args e.2.cmd with
    | ArgError => rw [hx] at hfe; cases hfe
    | OtherProcess => rw [hx] at hfe; cases hfe
    | Args a =>
      rw [hx] at hfe
      have hma : m = (length_of_process_chain (iter_parents_list t pid)
          (iter_parents_list t e.1), a) := by
        cases hfe; rfl
      refine ⟨e.1, e.2, by simpa using hep, het, ?_, ?_⟩
      · rw [hx]
        have ha : a = r := by rw [hma] at hm2; exact hm2
        rw [ha]
      · intro cpid2 cproc2 r2 hmem2 ht2 hx2
        have hin : (length_of_process_chain (iter_parents_list t pid)
            (iter_parents_list t cpid2), r2)
            ∈ (t.procs.filter (fun e2 =>
                process_start_time_difference_less_than_3s this_proc.start_time
                  e2.2.start_time)).filterMap
              (fun e2 =>
                match extract_args e2.2.cmd with
                | ProcessArgs.Args a2 =>
                  some (length_of_process_chain (iter_parents_list t pid)
                    (iter_parents_list t e2.1), a2)
                | _ => none) := by
          rw [List.mem_filterMap]
          exact ⟨(cpid2, cproc2), List.mem_filter.mpr ⟨hmem2, ht2⟩, by rw [hx2]⟩
        have := hle _ hin
        rw [hma] at this
        exact this

/-- Witness for C2 (amended) at `tableSelfMatch`. -/
theorem find_sibling_minimal_witness :
    ∃ this_proc : FakeProc, tableSelfMatch.lookup 1 = some this_proc ∧
      ∃ (cpid : Int) (cproc : FakeProc),
        (cpid, cproc) ∈ tableSelfMatch.procs ∧
        process_start_time_difference_less_than_3s this_proc.start_time cproc.start_time
          = true ∧
        guess_git_blame_filename_extension cproc.cmd = ProcessArgs.Args ("txt".data) ∧
        ∀ (cpid2 : Int) (cproc2 : FakeProc) (r2 : Str),
          (cpid2, cproc2) ∈ tableSelfMatch.procs →
          process_start_time_difference_less_than_3s this_proc.start_time cproc2.start_time
            = true →
          guess_git_blame_filename_extension cproc2.cmd = ProcessArgs.Args r2 →
          length_of_process_chain (iter_parents_list tableSelfMatch 1)
              (iter_parents_list tableSelfMatch cpid)
            ≤ length_of_process_chain (iter_parents_list tableSelfMatch 1)
                (iter_parents_list tableSelfMatch cpid2) :=
  find_sibling_minimal tableSelfMatch 1 guess_git_blame_filename_extension ("txt".data)
    (by decide)
